import Mathlib

/-!
Shallow embedding of the error-flow analysis core of the `code-context`
repository (`src/analyzers/error-analyzer.ts`), together with theorems
checking the natural-language specification of that core.

A TypeScript source file is modelled by the syntactic facts the analyzer
actually inspects: its class declarations (name and the text of the
`extends` clause), its `throw` statements (the raised expression), and its
`catch` clauses (the optional bound variable with its type text, and the
binary expressions occurring in the clause's block).  A project is the
list of source files in `ts-morph` iteration order.

JavaScript numbers are modelled by `ℚ` (all quantities involved are exact
small rationals), `Math.round` by `fun q => ⌊q + 1/2⌋` (JavaScript rounds
half-way cases toward positive infinity and every value here is
non-negative), `String.prototype.includes` by substring containment on
character lists, and `[...new Set(xs)]` by first-occurrence deduplication.
-/

namespace CodeContext

/-- Substring test: JavaScript `s.includes(sub)`. -/
def strIncludes (s sub : String) : Bool :=
  decide (sub.toList <:+: s.toList)

/-- First-occurrence deduplication with an accumulator of already-seen
elements; `jsDedupAux seen l` drops from `l` every element of `seen` and
every repeat, keeping first occurrences.  Models iterating a JavaScript
`Set` built by insertion. -/
def jsDedupAux (seen : List String) : List String → List String
  | [] => []
  | x :: xs => if x ∈ seen then jsDedupAux seen xs else x :: jsDedupAux (x :: seen) xs

/-- `[...new Set(l)]`: deduplication keeping the first occurrence of each
element, in order. -/
def jsDedup (l : List String) : List String :=
  jsDedupAux [] l

/-- JavaScript `Math.round` on the non-negative rationals used here. -/
def jsRound (q : ℚ) : ℤ :=
  ⌊q + 1/2⌋

/-- A source location (`{file, line}`). -/
structure Loc where
  file : String
  line : Nat
deriving DecidableEq, Repr

/-- The `TypedErrorInfo` record of `src/types/index.ts`. -/
structure TypedErrorInfo where
  name : String
  type : String
  location : Loc
deriving DecidableEq, Repr

/-- A class declaration as seen by the analyzer: `getName()` (possibly
absent for an anonymous class), the text of the `extends` heritage clause
(absent when the class extends nothing), and its start line. -/
structure ClassDecl where
  name : Option String
  extendsClause : Option String
  line : Nat
deriving DecidableEq, Repr

/-- The expression of a `throw` statement, by `ts-morph` syntax kind.
`newE c a` is a `NewExpression` whose constructor expression has text `c`
and whose argument list has text `a`; `ident s` is a bare `Identifier`;
`other t` is any other expression kind with source text `t`. -/
inductive ThrowExpr where
  | newE (ctor : String) (args : String)
  | ident (s : String)
  | other (t : String)
deriving DecidableEq, Repr

/-- `getText()` of a throw expression.  A `new` expression's text is the
`new` keyword, the constructor expression and the parenthesised
arguments. -/
def ThrowExpr.text : ThrowExpr → String
  | .newE c a => "new " ++ c ++ "(" ++ a ++ ")"
  | .ident s => s
  | .other t => t

/-- A `throw` statement: its expression (absent when `getExpression()`
yields nothing) and its start line. -/
structure ThrowStmt where
  expr : Option ThrowExpr
  line : Nat
deriving DecidableEq, Repr

/-- A binary expression inside a catch block: the operator token's text
and the right operand's text. -/
structure BinExpr where
  op : String
  rhs : String
deriving DecidableEq, Repr

/-- A `catch` clause: the optional bound variable (its name and the text
of its type), the binary expressions among the descendants of its block,
and its start line. -/
structure CatchClause where
  varDecl : Option (String × String)
  binExprs : List BinExpr
  line : Nat
deriving DecidableEq, Repr

/-- A parsed source file, reduced to the facts the analyzer inspects. -/
structure SourceFileAST where
  path : String
  classes : List ClassDecl
  throws : List ThrowStmt
  catches : List CatchClause
deriving DecidableEq, Repr

/-- The analyzer's project: its source files in iteration order. -/
abbrev Project := List SourceFileAST

/-- `ErrorAnalyzer.isErrorClass`: the heritage text contains one of the
recognized error-like names. -/
def isErrorClass (className : String) : Bool :=
  ["Error", "TypedError", "TypeError", "RangeError", "ReferenceError"].any
    (fun errClass => strIncludes className errClass)

/-- `ErrorAnalyzer.findDefinedErrors`: one entry per class whose
`extends` clause is error-like; an unnamed class is reported as
`AnonymousError`. -/
def findDefinedErrors (f : SourceFileAST) : List TypedErrorInfo :=
  f.classes.filterMap fun cls =>
    match cls.extendsClause with
    | some heritage =>
        if isErrorClass heritage then
          some ⟨cls.name.getD ("AnonymousError"), heritage, ⟨f.path, cls.line⟩⟩
        else none
    | none => none

/-- `ErrorAnalyzer.findThrownErrors`: `throw new C(...)` yields a site
named `C` tagged `thrown`; `throw e` for a bare identifier `e` yields a
site named `e` tagged `rethrown`; any other throw yields nothing. -/
def findThrownErrors (f : SourceFileAST) : List TypedErrorInfo :=
  f.throws.filterMap fun t =>
    match t.expr with
    | some (.newE c _) => some ⟨c, "thrown", ⟨f.path, t.line⟩⟩
    | some (.ident s) => some ⟨s, "rethrown", ⟨f.path, t.line⟩⟩
    | some (.other _) => none
    | none => none

/-- One step of `ErrorAnalyzer.findCaughtErrors` for one catch clause,
threading the accumulated `errors` array: a clause without a variable
declaration is skipped; each `instanceof` binary expression pushes a site
named by its right-hand side; afterwards, if the accumulated array is
still empty, a fallback site named by the clause's variable name is
pushed. -/
def catchStep (path : String) (errors : List TypedErrorInfo) (c : CatchClause) :
    List TypedErrorInfo :=
  match c.varDecl with
  | none => errors
  | some (errorName, errorType) =>
      let errors2 := errors ++ c.binExprs.filterMap fun binExpr =>
        if binExpr.op == "instanceof" then
          some ⟨binExpr.rhs, errorType, ⟨path, c.line⟩⟩
        else none
      if errors2.length == 0 then
        errors2 ++ [⟨errorName, errorType, ⟨path, c.line⟩⟩]
      else errors2

/-- `ErrorAnalyzer.findCaughtErrors`: fold `catchStep` over the file's
catch clauses starting from the empty array. -/
def findCaughtErrors (f : SourceFileAST) : List TypedErrorInfo :=
  f.catches.foldl (catchStep f.path) []

/-- The `ErrorContext` record of `src/types/index.ts`. -/
structure ErrorContext where
  defined : List TypedErrorInfo
  thrown : List TypedErrorInfo
  caught : List TypedErrorInfo
deriving DecidableEq, Repr

/-- `ErrorAnalyzer.analyzeFileErrors`: looks the file up in the project
and throws (modelled by `Except.error`) when it is absent. -/
def analyzeFileErrors (proj : Project) (filePath : String) :
    Except String ErrorContext :=
  match proj.find? (fun f => f.path == filePath) with
  | none => .error ("Source file not found: " ++ filePath)
  | some f => .ok ⟨findDefinedErrors f, findThrownErrors f, findCaughtErrors f⟩

/-- The `ErrorFlow` record of `src/types/index.ts`. -/
structure ErrorFlow where
  error : String
  definedIn : String
  thrownIn : List String
  caughtIn : List String
  uncaughtIn : List String
deriving DecidableEq, Repr

/-- The mutable state of `ErrorAnalyzer.analyzeErrorFlow` while iterating
over the project's source files. -/
structure FlowAcc where
  definedIn : String
  thrownIn : List String
  caughtIn : List String
deriving DecidableEq, Repr

/-- The class scan of `analyzeErrorFlow` in one file: does some class
declaration carry exactly the target name? -/
def classMatches (errorName : String) (f : SourceFileAST) : Bool :=
  f.classes.any fun cls => cls.name == some errorName

/-- The throw scan of `analyzeErrorFlow` in one file: one push of the
file's path per throw statement whose expression text contains the target
name. -/
def throwMatches (errorName : String) (f : SourceFileAST) : List String :=
  f.throws.filterMap fun t =>
    match t.expr with
    | some e => if strIncludes e.text errorName then some f.path else none
    | none => none

/-- The catch scan of `analyzeErrorFlow` in one file: one push of the
file's path per `instanceof` binary expression in a catch block whose
right-hand side text equals the target name. -/
def catchMatches (errorName : String) (f : SourceFileAST) : List String :=
  f.catches.flatMap fun c =>
    c.binExprs.filterMap fun binExpr =>
      if binExpr.op == "instanceof" && binExpr.rhs == errorName then some f.path
      else none

/-- One file's contribution in `analyzeErrorFlow`: any class with the
target name overwrites `definedIn`; every throw statement whose expression
text contains the target pushes the file onto `thrownIn`; every
`instanceof` expression in a catch block whose right-hand side equals the
target pushes the file onto `caughtIn`. -/
def flowStep (errorName : String) (acc : FlowAcc) (f : SourceFileAST) : FlowAcc where
  definedIn := if classMatches errorName f then f.path else acc.definedIn
  thrownIn := acc.thrownIn ++ throwMatches errorName f
  caughtIn := acc.caughtIn ++ catchMatches errorName f

/-- `ErrorAnalyzer.analyzeErrorFlow`: iterate `flowStep` over all files,
compute `uncaughtIn` as the thrown files not occurring among the caught
files, and deduplicate each list through a JavaScript `Set`. -/
def analyzeErrorFlow (proj : Project) (errorName : String) : ErrorFlow :=
  let acc := proj.foldl (flowStep errorName) ⟨"", [], []⟩
  let uncaughtIn := acc.thrownIn.filter fun file => !acc.caughtIn.contains file
  { error := errorName
    definedIn := acc.definedIn
    thrownIn := jsDedup acc.thrownIn
    caughtIn := jsDedup acc.caughtIn
    uncaughtIn := jsDedup uncaughtIn }

/-- One entry of `CoverageReport.details`. -/
structure CoverageDetail where
  error : String
  coverage : ℚ
  riskyFiles : List String
deriving DecidableEq, Repr

/-- The `CoverageReport` record of `src/types/index.ts`; `percentage` is
an integer because the source applies `Math.round`. -/
structure CoverageReport where
  totalErrors : Nat
  coveredErrors : Nat
  uncoveredErrors : Nat
  percentage : ℤ
  details : List CoverageDetail
deriving DecidableEq, Repr

/-- The error-class collection pass of `generateCoverageReport`: every
named class with an error-like heritage clause, deduplicated by a
JavaScript `Set` in insertion order. -/
def collectAllErrors (proj : Project) : List String :=
  jsDedup <| proj.flatMap fun f =>
    f.classes.filterMap fun cls =>
      match cls.extendsClause with
      | some heritage => if isErrorClass heritage then cls.name else none
      | none => none

/-- The per-error `coverage` value of a details entry:
`caughtIn.length / thrownIn.length * 100` when some file throws the
error, else `0`. -/
def detailCoverage (flow : ErrorFlow) : ℚ :=
  if 0 < flow.thrownIn.length then
    ((flow.caughtIn.length : ℚ) / (flow.thrownIn.length : ℚ)) * 100
  else 0

/-- `ErrorAnalyzer.generateCoverageReport`. -/
def generateCoverageReport (proj : Project) : CoverageReport :=
  let allErrors := collectAllErrors proj
  let errorFlows := allErrors.map (analyzeErrorFlow proj)
  let totalErrors := errorFlows.length
  let coveredErrors :=
    (errorFlows.filter fun flow => decide (0 < flow.caughtIn.length)).length
  let uncoveredErrors := totalErrors - coveredErrors
  let percentage : ℚ :=
    if 0 < totalErrors then ((coveredErrors : ℚ) / (totalErrors : ℚ)) * 100 else 0
  let details := errorFlows.map fun flow =>
    { error := flow.error
      coverage := detailCoverage flow
      riskyFiles := flow.uncaughtIn : CoverageDetail }
  { totalErrors := totalErrors
    coveredErrors := coveredErrors
    uncoveredErrors := uncoveredErrors
    percentage := jsRound percentage
    details := details }

/-- A file contains a throw statement whose expression text contains the
given name (the matching rule `analyzeErrorFlow` actually applies). -/
def fileThrowsCode (f : SourceFileAST) (n : String) : Bool :=
  f.throws.any fun t =>
    match t.expr with
    | some e => strIncludes e.text n
    | none => false

/-- A file contains, inside some catch clause's block, an `instanceof`
test whose right-hand side text equals the given name (the matching rule
`analyzeErrorFlow` actually applies). -/
def fileCatchesCode (f : SourceFileAST) (n : String) : Bool :=
  f.catches.any fun c =>
    c.binExprs.any fun binExpr => binExpr.op == "instanceof" && binExpr.rhs == n

/-- Spec wording for `raisedIn` membership: the file contains a raise
site, as collected by `findThrownErrors`, whose `name` textually contains
the target error name. -/
def fileRaisesSpec (f : SourceFileAST) (n : String) : Bool :=
  (findThrownErrors f).any fun site => strIncludes site.name n

/-- Spec wording for `interceptedIn` membership: the file contains an
intercept site, as collected by `findCaughtErrors`, whose `name` exactly
equals the target error name. -/
def fileInterceptsSpec (f : SourceFileAST) (n : String) : Bool :=
  (findCaughtErrors f).any fun site => site.name == n

/-- Spec wording for `definedIn`: the file of the first declaration, in
file-iteration order, of a class whose name equals the target; empty when
there is none. -/
def firstDefinedIn (proj : Project) (n : String) : String :=
  match proj.find? (classMatches n) with
  | some f => f.path
  | none => ""

/-- The value `definedIn` actually takes: the file of the last
declaration, in file-iteration order, of a class whose name equals the
target; empty when there is none. -/
def lastDefinedIn (proj : Project) (n : String) : String :=
  match proj.reverse.find? (classMatches n) with
  | some f => f.path
  | none => ""

/-- The `instanceof` sites one catch clause contributes in
`findCaughtErrors`: one site per `instanceof` binary expression, named by
its right-hand side; a clause without a variable declaration contributes
nothing. -/
def instSites (path : String) (c : CatchClause) : List TypedErrorInfo :=
  match c.varDecl with
  | none => []
  | some (_, errorType) =>
      c.binExprs.filterMap fun binExpr =>
        if binExpr.op == "instanceof" then
          some ⟨binExpr.rhs, errorType, ⟨path, c.line⟩⟩
        else none

/-- The fallback site of a catch clause: named by the clause's bound
variable name, typed by its type text. -/
def fallbackSite (path : String) (c : CatchClause) : Option TypedErrorInfo :=
  c.varDecl.map fun vd => ⟨vd.1, vd.2, ⟨path, c.line⟩⟩

/-- Closed-form description of `findCaughtErrors`: all `instanceof` sites
of all clauses in order and, when the first clause that has a variable
declaration has no `instanceof` site of its own, additionally that
clause's fallback site in front. -/
def caughtRefAux (path : String) (cs : List CatchClause) : List TypedErrorInfo :=
  let occ := cs.flatMap (instSites path)
  match cs.find? (fun c => c.varDecl.isSome) with
  | none => occ
  | some c0 =>
      match fallbackSite path c0 with
      | none => occ
      | some fb => if (instSites path c0).isEmpty then fb :: occ else occ

/-- The empty-but-valid `ErrorFlow` for a name: nothing defined, thrown,
caught or uncaught. -/
def emptyFlow (n : String) : ErrorFlow :=
  ⟨n, "", [], [], []⟩

/-- Scenario file: declares `class LoginError extends Error`. -/
def fileDeclA : SourceFileAST :=
  ⟨"a.ts", [⟨some ("LoginError"), some ("Error"), 1⟩], [], []⟩

/-- Scenario file: a second, colliding declaration of `LoginError`. -/
def fileDeclB : SourceFileAST :=
  ⟨"b.ts", [⟨some ("LoginError"), some ("Error"), 1⟩], [], []⟩

/-- Scenario file: contains `throw new LoginError()`. -/
def fileThrowB : SourceFileAST :=
  ⟨"bb.ts", [], [⟨some (.newE ("LoginError") ("")), 3⟩], []⟩

/-- Scenario file: contains a catch with `e instanceof LoginError`. -/
def fileCatchC : SourceFileAST :=
  ⟨"c.ts", [], [], [⟨some (("e", "any")), [⟨"instanceof", "LoginError"⟩], 5⟩]⟩

/-- Counterexample file for the aggregator matching rules: it throws a
call expression `getLoginError()` (not a raise site, but its text contains
the target) and has a catch clause with no `instanceof` test whose bound
variable is named `LoginError` (a fallback intercept site named exactly
like the target). -/
def fileCx1 : SourceFileAST :=
  ⟨"x.ts", [], [⟨some (.other ("getLoginError()")), 1⟩], [⟨some (("LoginError", "any")), [], 2⟩]⟩

/-- Counterexample file for the site collector: a first catch clause
testing `instanceof A` twice, then a second catch clause with no type
test at all. -/
def fileCx2 : SourceFileAST :=
  ⟨"d.ts", [], [], [⟨some (("e", "any")), [⟨"instanceof", "A"⟩, ⟨"instanceof", "A"⟩], 1⟩,
    ⟨some (("err", "SomeType")), [], 5⟩]⟩

/-- Counterexample file for the fallback naming rule: a single catch
clause with no type test, whose variable is named `err` and typed
`SomeType`. -/
def fileCx2b : SourceFileAST :=
  ⟨"f.ts", [], [], [⟨some (("err", "SomeType")), [], 5⟩]⟩

/-- A file with no declarations, throws or catches. -/
def fileBlank : SourceFileAST :=
  ⟨"blank.ts", [], [], []⟩

/-- Extra raising file used for the monotonicity witness: another
`throw new LoginError()` in a fresh file. -/
def fileThrowG : SourceFileAST :=
  ⟨"g.ts", [], [⟨some (.newE ("LoginError") ("")), 7⟩], []⟩

/-! ## Helper lemmas -/

theorem strIncludes_iff {s sub : String} :
    strIncludes s sub = true ↔ sub.toList <:+: s.toList := by
  simp [strIncludes]

theorem toList_append (s t : String) : (s ++ t).toList = s.toList ++ t.toList := by
  simp [String.toList, String.data_append]

theorem mem_jsDedupAux {x : String} (l : List String) :
    ∀ seen, (x ∈ jsDedupAux seen l ↔ x ∈ l ∧ x ∉ seen) := by
  induction l with
  | nil => intro seen; simp [jsDedupAux]
  | cons y l ih =>
    intro seen
    by_cases hy : y ∈ seen
    · rw [jsDedupAux, if_pos hy, ih seen]
      constructor
      · rintro ⟨hx, hs⟩
        exact ⟨List.mem_cons_of_mem _ hx, hs⟩
      · rintro ⟨hx, hs⟩
        rcases List.mem_cons.mp hx with h | h
        · exact absurd (h ▸ hy) hs
        · exact ⟨h, hs⟩
    · rw [jsDedupAux, if_neg hy, List.mem_cons]
      constructor
      · rintro (h | hx)
        · exact ⟨h ▸ List.mem_cons_self y l, h ▸ hy⟩
        · rcases (ih (y :: seen)).mp hx with ⟨h1, h2⟩
          exact ⟨List.mem_cons_of_mem _ h1,
            fun hmem => h2 (List.mem_cons_of_mem _ hmem)⟩
      · rintro ⟨hx, hs⟩
        by_cases hxy : x = y
        · exact Or.inl hxy
        · rcases List.mem_cons.mp hx with h | h
          · exact absurd h hxy
          · refine Or.inr ((ih (y :: seen)).mpr ⟨h, ?_⟩)
            intro hmem
            rcases List.mem_cons.mp hmem with h2 | h2
            · exact hxy h2
            · exact hs h2

theorem mem_jsDedup {x : String} {l : List String} : x ∈ jsDedup l ↔ x ∈ l := by
  rw [jsDedup, mem_jsDedupAux]
  simp

theorem nodup_jsDedupAux (l : List String) : ∀ seen, (jsDedupAux seen l).Nodup := by
  induction l with
  | nil => intro seen; simp [jsDedupAux]
  | cons y l ih =>
    intro seen
    by_cases hy : y ∈ seen
    · rw [jsDedupAux, if_pos hy]; exact ih seen
    · rw [jsDedupAux, if_neg hy]
      refine List.nodup_cons.mpr ⟨?_, ih (y :: seen)⟩
      intro hmem
      exact ((mem_jsDedupAux l (y :: seen)).mp hmem).2 (List.mem_cons_self y seen)

theorem nodup_jsDedup (l : List String) : (jsDedup l).Nodup :=
  nodup_jsDedupAux l []

theorem jsDedup_eq_nil_iff {l : List String} : jsDedup l = [] ↔ l = [] := by
  rw [List.eq_nil_iff_forall_not_mem, List.eq_nil_iff_forall_not_mem]
  constructor
  · intro h x hx
    exact h x (mem_jsDedup.mpr hx)
  · intro h x hx
    exact h x (mem_jsDedup.mp hx)

theorem jsDedupAux_eq_nil (l : List String) :
    ∀ seen, (∀ x ∈ l, x ∈ seen) → jsDedupAux seen l = [] := by
  induction l with
  | nil => intro seen _; rfl
  | cons y l ih =>
    intro seen h
    rw [jsDedupAux, if_pos (h y (List.mem_cons_self y l))]
    exact ih seen fun x hx => h x (List.mem_cons_of_mem _ hx)

theorem jsDedupAux_append_const {p : String} {l2 : List String}
    (hall : ∀ x ∈ l2, x = p) (hne : l2 ≠ []) (l1 : List String) :
    ∀ seen, p ∉ seen → p ∉ l1 →
      jsDedupAux seen (l1 ++ l2) = jsDedupAux seen l1 ++ [p] := by
  induction l1 with
  | nil =>
    intro seen hps _
    cases l2 with
    | nil => exact absurd rfl hne
    | cons z l2 =>
      have hz : z = p := hall z (List.mem_cons_self z l2)
      subst hz
      have h1 : jsDedupAux seen (z :: l2) = z :: jsDedupAux (z :: seen) l2 := by
        rw [jsDedupAux, if_neg hps]
      rw [List.nil_append, h1, jsDedupAux_eq_nil l2 (z :: seen)
        (fun x hx => (hall x (List.mem_cons_of_mem _ hx)) ▸ List.mem_cons_self z seen)]
      simp [jsDedupAux]
  | cons y l1 ih =>
    intro seen hps hpl
    have hpy : p ≠ y := fun h => hpl (h ▸ List.mem_cons_self y l1)
    have hpl1 : p ∉ l1 := fun h => hpl (List.mem_cons_of_mem _ h)
    by_cases hy : y ∈ seen
    · rw [List.cons_append, jsDedupAux, if_pos hy, jsDedupAux, if_pos hy]
      exact ih seen hps hpl1
    · rw [List.cons_append, jsDedupAux, if_neg hy, jsDedupAux, if_neg hy,
        List.cons_append]
      rw [ih (y :: seen) (fun h => by
        rcases List.mem_cons.mp h with h2 | h2
        · exact hpy h2
        · exact hps h2) hpl1]

theorem jsDedup_append_const {p : String} {l1 l2 : List String}
    (hall : ∀ x ∈ l2, x = p) (hne : l2 ≠ []) (hpl : p ∉ l1) :
    jsDedup (l1 ++ l2) = jsDedup l1 ++ [p] :=
  jsDedupAux_append_const hall hne l1 [] (by simp) hpl

/-! ### Per-file matching characterizations -/

theorem mem_throwMatches {x n : String} {f : SourceFileAST} :
    x ∈ throwMatches n f ↔ x = f.path ∧ fileThrowsCode f n = true := by
  rw [throwMatches, List.mem_filterMap, fileThrowsCode, List.any_eq_true]
  constructor
  · rintro ⟨t, ht, heq⟩
    cases hte : t.expr with
    | some e =>
      rw [hte] at heq
      by_cases hinc : strIncludes e.text n = true
      · simp only [hinc, if_true] at heq
        exact ⟨(Option.some.inj heq).symm, ⟨t, ht, by rw [hte]; exact hinc⟩⟩
      · simp [hinc] at heq
    | none => rw [hte] at heq; simp at heq
  · rintro ⟨hx, t, ht, hmatch⟩
    refine ⟨t, ht, ?_⟩
    cases hte : t.expr with
    | some e =>
      rw [hte] at hmatch
      simp at hmatch
      simp [hmatch, hx]
    | none => rw [hte] at hmatch; simp at hmatch

theorem mem_catchMatches {x n : String} {f : SourceFileAST} :
    x ∈ catchMatches n f ↔ x = f.path ∧ fileCatchesCode f n = true := by
  rw [catchMatches, List.mem_flatMap, fileCatchesCode, List.any_eq_true]
  constructor
  · rintro ⟨c, hc, hmem⟩
    rw [List.mem_filterMap] at hmem
    obtain ⟨b, hb, heq⟩ := hmem
    by_cases hcond : (b.op == "instanceof" && b.rhs == n) = true
    · rw [if_pos hcond] at heq
      exact ⟨(Option.some.inj heq).symm,
        ⟨c, hc, List.any_eq_true.mpr ⟨b, hb, hcond⟩⟩⟩
    · rw [if_neg hcond] at heq; exact absurd heq (by simp)
  · rintro ⟨hx, c, hc, hany⟩
    obtain ⟨b, hb, hcond⟩ := List.any_eq_true.mp hany
    exact ⟨c, hc, List.mem_filterMap.mpr ⟨b, hb, by rw [if_pos hcond, hx]⟩⟩

theorem throwMatches_eq_nil {n : String} {f : SourceFileAST}
    (h : fileThrowsCode f n = false) : throwMatches n f = [] := by
  rw [List.eq_nil_iff_forall_not_mem]
  intro x hx
  rw [mem_throwMatches] at hx
  rw [hx.2] at h
  exact absurd h (by simp)

theorem catchMatches_eq_nil {n : String} {f : SourceFileAST}
    (h : fileCatchesCode f n = false) : catchMatches n f = [] := by
  rw [List.eq_nil_iff_forall_not_mem]
  intro x hx
  rw [mem_catchMatches] at hx
  rw [hx.2] at h
  exact absurd h (by simp)

theorem throwMatches_ne_nil {n : String} {f : SourceFileAST}
    (h : fileThrowsCode f n = true) : throwMatches n f ≠ [] := by
  intro hnil
  have : f.path ∈ throwMatches n f := mem_throwMatches.mpr ⟨rfl, h⟩
  rw [hnil] at this
  exact absurd this (by simp)

/-! ### Characterizing the `analyzeErrorFlow` fold -/

theorem foldl_flowStep_thrownIn (n : String) (proj : Project) :
    ∀ acc : FlowAcc, (proj.foldl (flowStep n) acc).thrownIn =
      acc.thrownIn ++ proj.flatMap (throwMatches n) := by
  induction proj with
  | nil => intro acc; simp
  | cons f proj ih =>
    intro acc
    rw [List.foldl_cons, ih, List.flatMap_cons, ← List.append_assoc]
    rfl

theorem foldl_flowStep_caughtIn (n : String) (proj : Project) :
    ∀ acc : FlowAcc, (proj.foldl (flowStep n) acc).caughtIn =
      acc.caughtIn ++ proj.flatMap (catchMatches n) := by
  induction proj with
  | nil => intro acc; simp
  | cons f proj ih =>
    intro acc
    rw [List.foldl_cons, ih, List.flatMap_cons, ← List.append_assoc]
    rfl

theorem foldl_flowStep_definedIn (n : String) (proj : Project) :
    ∀ acc : FlowAcc, (proj.foldl (flowStep n) acc).definedIn =
      (match proj.reverse.find? (classMatches n) with
        | some f => f.path
        | none => acc.definedIn) := by
  induction proj with
  | nil => intro acc; simp
  | cons f proj ih =>
    intro acc
    rw [List.foldl_cons, ih, List.reverse_cons, List.find?_append]
    cases hfind : proj.reverse.find? (classMatches n) with
    | some g => simp
    | none =>
      simp only [Option.none_or]
      by_cases hf : classMatches n f = true
      · simp [List.find?, hf, flowStep]
      · simp only [Bool.not_eq_true] at hf
        simp [List.find?, hf, flowStep]

theorem analyzeErrorFlow_error (proj : Project) (n : String) :
    (analyzeErrorFlow proj n).error = n := rfl

theorem analyzeErrorFlow_definedIn (proj : Project) (n : String) :
    (analyzeErrorFlow proj n).definedIn = lastDefinedIn proj n := by
  rw [analyzeErrorFlow, lastDefinedIn]
  simp only [foldl_flowStep_definedIn]

theorem analyzeErrorFlow_thrownIn (proj : Project) (n : String) :
    (analyzeErrorFlow proj n).thrownIn = jsDedup (proj.flatMap (throwMatches n)) := by
  rw [analyzeErrorFlow]
  simp only [foldl_flowStep_thrownIn]
  rfl

theorem analyzeErrorFlow_caughtIn (proj : Project) (n : String) :
    (analyzeErrorFlow proj n).caughtIn = jsDedup (proj.flatMap (catchMatches n)) := by
  rw [analyzeErrorFlow]
  simp only [foldl_flowStep_caughtIn]
  rfl

theorem analyzeErrorFlow_uncaughtIn (proj : Project) (n : String) :
    (analyzeErrorFlow proj n).uncaughtIn =
      jsDedup ((proj.flatMap (throwMatches n)).filter
        fun file => !(proj.flatMap (catchMatches n)).contains file) := by
  rw [analyzeErrorFlow]
  simp only [foldl_flowStep_thrownIn, foldl_flowStep_caughtIn]
  rfl

theorem mem_analyzeErrorFlow_thrownIn {proj : Project} {n x : String} :
    x ∈ (analyzeErrorFlow proj n).thrownIn ↔
      ∃ f ∈ proj, f.path = x ∧ fileThrowsCode f n = true := by
  rw [analyzeErrorFlow_thrownIn, mem_jsDedup, List.mem_flatMap]
  constructor
  · rintro ⟨f, hf, hmem⟩
    obtain ⟨hx, hcode⟩ := mem_throwMatches.mp hmem
    exact ⟨f, hf, hx.symm, hcode⟩
  · rintro ⟨f, hf, hx, hcode⟩
    exact ⟨f, hf, mem_throwMatches.mpr ⟨hx.symm, hcode⟩⟩

theorem analyzeErrorFlow_thrownIn_eq_nil_iff {proj : Project} {n : String} :
    (analyzeErrorFlow proj n).thrownIn = [] ↔
      ∀ f ∈ proj, fileThrowsCode f n = false := by
  rw [analyzeErrorFlow_thrownIn, jsDedup_eq_nil_iff, List.flatMap_eq_nil_iff]
  constructor
  · intro h f hf
    cases hc : fileThrowsCode f n with
    | true => exact absurd (h f hf) (throwMatches_ne_nil hc)
    | false => rfl
  · intro h f hf
    exact throwMatches_eq_nil (h f hf)

theorem mem_analyzeErrorFlow_caughtIn {proj : Project} {n x : String} :
    x ∈ (analyzeErrorFlow proj n).caughtIn ↔
      ∃ f ∈ proj, f.path = x ∧ fileCatchesCode f n = true := by
  rw [analyzeErrorFlow_caughtIn, mem_jsDedup, List.mem_flatMap]
  constructor
  · rintro ⟨f, hf, hmem⟩
    obtain ⟨hx, hcode⟩ := mem_catchMatches.mp hmem
    exact ⟨f, hf, hx.symm, hcode⟩
  · rintro ⟨f, hf, hx, hcode⟩
    exact ⟨f, hf, mem_catchMatches.mpr ⟨hx.symm, hcode⟩⟩

/-! ### Characterizing the `findCaughtErrors` fold -/

theorem catchStep_of_ne_nil {path : String} {acc : List TypedErrorInfo}
    (hacc : acc ≠ []) (c : CatchClause) :
    catchStep path acc c = acc ++ instSites path c := by
  cases hv : c.varDecl with
  | none => simp [catchStep, instSites, hv]
  | some vd =>
    obtain ⟨vn, vt⟩ := vd
    simp only [catchStep, instSites, hv]
    rw [if_neg]
    simp [List.length_append, hacc]

theorem foldl_catchStep_of_ne_nil (path : String) (cs : List CatchClause) :
    ∀ acc, acc ≠ [] →
      cs.foldl (catchStep path) acc = acc ++ cs.flatMap (instSites path) := by
  induction cs with
  | nil => intro acc _; simp
  | cons c cs ih =>
    intro acc hacc
    rw [List.foldl_cons, List.flatMap_cons, catchStep_of_ne_nil hacc c,
      ih _ (fun h => hacc (List.append_eq_nil.mp h).1), List.append_assoc]

theorem findCaughtErrors_eq_caughtRefAux (f : SourceFileAST) :
    findCaughtErrors f = caughtRefAux f.path f.catches := by
  rw [findCaughtErrors]
  generalize f.catches = cs
  generalize f.path = path
  induction cs with
  | nil => rfl
  | cons c cs ih =>
    cases hv : c.varDecl with
    | none =>
      have h1 : catchStep path [] c = [] := by simp [catchStep, hv]
      rw [List.foldl_cons, h1, ih]
      have hfind : (c :: cs).find? (fun c => c.varDecl.isSome) =
          cs.find? (fun c => c.varDecl.isSome) := by
        rw [List.find?_cons_of_neg]
        simp [hv]
      have hinst : instSites path c = [] := by simp [instSites, hv]
      simp only [caughtRefAux, hfind, List.flatMap_cons, hinst, List.nil_append]
    | some vd =>
      obtain ⟨vn, vt⟩ := vd
      have hfind : (c :: cs).find? (fun c => c.varDecl.isSome) = some c := by
        rw [List.find?_cons_of_pos]
        simp [hv]
      have hfb : fallbackSite path c = some ⟨vn, vt, ⟨path, c.line⟩⟩ := by
        simp [fallbackSite, hv]
      have h2 : instSites path c = c.binExprs.filterMap fun binExpr =>
          if binExpr.op == "instanceof" then
            some (⟨binExpr.rhs, vt, ⟨path, c.line⟩⟩ : TypedErrorInfo)
          else none := by
        simp [instSites, hv]
      by_cases hemp : instSites path c = []
      · have h1 : catchStep path [] c = [⟨vn, vt, ⟨path, c.line⟩⟩] := by
          simp only [catchStep, hv, List.nil_append]
          rw [← h2, hemp]
          rfl
        rw [List.foldl_cons, h1,
          foldl_catchStep_of_ne_nil path cs _ (by simp)]
        simp only [caughtRefAux, hfind, hfb, hemp, List.isEmpty_nil, if_true,
          List.flatMap_cons, List.nil_append]
        rfl
      · have h1 : catchStep path [] c = instSites path c := by
          simp only [catchStep, hv, List.nil_append]
          rw [← h2, if_neg]
          simp [List.length_eq_zero, hemp]
        rw [List.foldl_cons, h1, foldl_catchStep_of_ne_nil path cs _ hemp]
        have hne : (instSites path c).isEmpty = false := by
          cases h : instSites path c with
          | nil => exact absurd h hemp
          | cons a l => rfl
        simp only [caughtRefAux, hfind, hfb, hne, Bool.false_eq_true, if_false,
          List.flatMap_cons]

/-! ### Raise sites, boolean bridges, and report fields -/

theorem mem_findThrownErrors {f : SourceFileAST} {site : TypedErrorInfo} :
    site ∈ findThrownErrors f ↔
      ∃ t ∈ f.throws,
        (∃ c a, t.expr = some (.newE c a) ∧
          site = ⟨c, "thrown", ⟨f.path, t.line⟩⟩) ∨
        (∃ s, t.expr = some (.ident s) ∧
          site = ⟨s, "rethrown", ⟨f.path, t.line⟩⟩) := by
  rw [findThrownErrors, List.mem_filterMap]
  constructor
  · rintro ⟨t, ht, heq⟩
    refine ⟨t, ht, ?_⟩
    cases hte : t.expr with
    | none => rw [hte] at heq; simp at heq
    | some e =>
      rw [hte] at heq
      cases e with
      | newE c a =>
        simp only [Option.some.injEq] at heq
        exact Or.inl ⟨c, a, rfl, heq.symm⟩
      | ident s =>
        simp only [Option.some.injEq] at heq
        exact Or.inr ⟨s, rfl, heq.symm⟩
      | other tx => simp at heq
  · rintro ⟨t, ht, h⟩
    refine ⟨t, ht, ?_⟩
    rcases h with ⟨c, a, hte, hsite⟩ | ⟨s, hte, hsite⟩
    · rw [hte, hsite]
    · rw [hte, hsite]

theorem strIncludes_newText {c a n : String} (h : strIncludes c n = true) :
    strIncludes (ThrowExpr.text (.newE c a)) n = true := by
  rw [strIncludes_iff] at h ⊢
  refine h.trans ?_
  show c.toList <:+: ("new " ++ c ++ "(" ++ a ++ ")").toList
  rw [toList_append, toList_append, toList_append, toList_append]
  exact ⟨("new ").toList, ("(").toList ++ a.toList ++ (")").toList,
    by simp [List.append_assoc]⟩

theorem fileThrowsCode_of_fileRaisesSpec {f : SourceFileAST} {n : String}
    (h : fileRaisesSpec f n = true) : fileThrowsCode f n = true := by
  rw [fileRaisesSpec, List.any_eq_true] at h
  obtain ⟨site, hsite, hinc⟩ := h
  rw [mem_findThrownErrors] at hsite
  obtain ⟨t, ht, hcase⟩ := hsite
  rw [fileThrowsCode, List.any_eq_true]
  refine ⟨t, ht, ?_⟩
  rcases hcase with ⟨c, a, hte, hs⟩ | ⟨s, hte, hs⟩
  · rw [hte]
    show strIncludes (ThrowExpr.text (.newE c a)) n = true
    apply strIncludes_newText
    rw [hs] at hinc
    exact hinc
  · rw [hte]
    show strIncludes (ThrowExpr.text (.ident s)) n = true
    rw [hs] at hinc
    exact hinc

theorem mem_collectAllErrors {proj : Project} {n : String} :
    n ∈ collectAllErrors proj ↔
      ∃ f ∈ proj, ∃ cls ∈ f.classes, cls.name = some n ∧
        ∃ her, cls.extendsClause = some her ∧ isErrorClass her = true := by
  rw [collectAllErrors, mem_jsDedup, List.mem_flatMap]
  constructor
  · rintro ⟨f, hf, hmem⟩
    rw [List.mem_filterMap] at hmem
    obtain ⟨cls, hcls, heq⟩ := hmem
    cases hext : cls.extendsClause with
    | none => rw [hext] at heq; simp at heq
    | some her =>
      rw [hext] at heq
      by_cases hic : isErrorClass her = true
      · simp only [hic, if_true] at heq
        exact ⟨f, hf, cls, hcls, heq, her, hext, hic⟩
      · simp [hic] at heq
  · rintro ⟨f, hf, cls, hcls, hname, her, hext, hic⟩
    refine ⟨f, hf, List.mem_filterMap.mpr ⟨cls, hcls, ?_⟩⟩
    rw [hext]
    simp only [hic, if_true]
    exact hname

theorem not_contains_iff {l : List String} {y : String} :
    (!l.contains y) = true ↔ y ∉ l := by
  cases hc : l.contains y with
  | true =>
    simp only [Bool.not_true, Bool.false_eq_true, false_iff]
    intro hmem
    exact hmem (List.elem_iff.mp hc)
  | false =>
    simp only [Bool.not_false, true_iff]
    intro hmem
    have h2 : l.contains y = true := List.elem_iff.mpr hmem
    exact absurd (h2.symm.trans hc) (by decide)

theorem mem_analyzeErrorFlow_uncaughtIn {proj : Project} {n x : String} :
    x ∈ (analyzeErrorFlow proj n).uncaughtIn ↔
      x ∈ (analyzeErrorFlow proj n).thrownIn ∧
        x ∉ (analyzeErrorFlow proj n).caughtIn := by
  rw [analyzeErrorFlow_uncaughtIn, analyzeErrorFlow_thrownIn, analyzeErrorFlow_caughtIn,
    mem_jsDedup, List.mem_filter, mem_jsDedup, mem_jsDedup, not_contains_iff]

theorem coverageReport_totalErrors (proj : Project) :
    (generateCoverageReport proj).totalErrors = (collectAllErrors proj).length := by
  simp [generateCoverageReport]

theorem coverageReport_coveredErrors (proj : Project) :
    (generateCoverageReport proj).coveredErrors =
      ((collectAllErrors proj).filter fun m =>
        decide (0 < (analyzeErrorFlow proj m).caughtIn.length)).length := by
  simp [generateCoverageReport, List.filter_map, Function.comp]
  rfl

theorem coverageReport_uncoveredErrors (proj : Project) :
    (generateCoverageReport proj).uncoveredErrors =
      (generateCoverageReport proj).totalErrors -
        (generateCoverageReport proj).coveredErrors := by
  simp [generateCoverageReport]

theorem coverageReport_percentage (proj : Project) :
    (generateCoverageReport proj).percentage =
      jsRound (if 0 < (collectAllErrors proj).length then
        (((collectAllErrors proj).filter fun m =>
          decide (0 < (analyzeErrorFlow proj m).caughtIn.length)).length : ℚ) /
          ((collectAllErrors proj).length : ℚ) * 100
        else 0) := by
  simp [generateCoverageReport, List.filter_map, Function.comp]
  rfl

theorem coverageReport_details (proj : Project) :
    (generateCoverageReport proj).details =
      (collectAllErrors proj).map fun m =>
        ⟨m, detailCoverage (analyzeErrorFlow proj m),
          (analyzeErrorFlow proj m).uncaughtIn⟩ := by
  simp only [generateCoverageReport, List.map_map]
  rfl

theorem jsRound_zero : jsRound 0 = 0 := by
  norm_num [jsRound, Int.floor_eq_iff]

theorem jsRound_bounds {q : ℚ} (h0 : 0 ≤ q) (h100 : q ≤ 100) :
    0 ≤ jsRound q ∧ jsRound q ≤ 100 := by
  constructor
  · rw [jsRound]
    exact Int.le_floor.mpr (by push_cast; linarith)
  · rw [jsRound]
    have h1 : ⌊q + 1/2⌋ ≤ ⌊(201 : ℚ)/2⌋ := Int.floor_le_floor (by linarith)
    have h2 : ⌊(201 : ℚ)/2⌋ = 100 := by norm_num [Int.floor_eq_iff]
    omega

/-! ## Claim theorems -/

/-- C1, counterexample.  The claim says `raisedIn` collects exactly the
files with a raise site (collector site of kind raised or re-raised) whose
name contains the target, and `interceptedIn` exactly the files with an
intercept site whose name equals the target.  In `fileCx1`,
`throw getLoginError()` is no raise site at all, yet its expression text
contains `LoginError`, so the aggregator puts the file into `thrownIn`;
and the fallback intercept site of its catch clause is named exactly
`LoginError`, yet the aggregator (which only looks at `instanceof` tests)
leaves `caughtIn` empty. -/
theorem C1_counterexample :
    (("x.ts") ∈ (analyzeErrorFlow [fileCx1] ("LoginError")).thrownIn ∧
      fileRaisesSpec fileCx1 ("LoginError") = false) ∧
    (("x.ts") ∉ (analyzeErrorFlow [fileCx1] ("LoginError")).caughtIn ∧
      fileInterceptsSpec fileCx1 ("LoginError") = true) := by
  decide

/-- C1, amended: `thrownIn` is exactly the set of files containing a
throw statement whose whole raised-expression text contains the target
name (whatever the expression kind), and `caughtIn` is exactly the set of
files containing, inside a catch block, an `instanceof` test whose
right-hand side text equals the target name; the collector's intercept
sites (in particular fallback sites) play no role. -/
theorem C1_amended_flow_sets (proj : Project) (n : String) :
    ∀ x, (x ∈ (analyzeErrorFlow proj n).thrownIn ↔
        ∃ f ∈ proj, f.path = x ∧ fileThrowsCode f n = true) ∧
      (x ∈ (analyzeErrorFlow proj n).caughtIn ↔
        ∃ f ∈ proj, f.path = x ∧ fileCatchesCode f n = true) :=
  fun _ => ⟨mem_analyzeErrorFlow_thrownIn, mem_analyzeErrorFlow_caughtIn⟩

/-- C1, witness for the amended theorem at a concrete project. -/
theorem C1_amended_witness :
    ("c.ts") ∈ (analyzeErrorFlow [fileThrowB, fileCatchC] ("LoginError")).caughtIn :=
  ((C1_amended_flow_sets [fileThrowB, fileCatchC] ("LoginError")) ("c.ts")).2.mpr
    ⟨fileCatchC, by decide, by decide, by decide⟩

/-- C2, counterexample.  A catch clause testing `instanceof A` twice
yields two sites named `A` (the claim says one per distinct tested type);
after it, a second catch clause with no type test yields no fallback site
at all because the accumulated array is non-empty file-wide (the claim
says exactly one fallback per such clause); and in a file whose only catch
clause has no type test, the fallback site is named by the bound variable
(`err`), not by its declared type (`SomeType`) as the claim states. -/
theorem C2_counterexample :
    (findCaughtErrors fileCx2 =
      [⟨("A"), ("any"), ⟨("d.ts"), 1⟩⟩, ⟨("A"), ("any"), ⟨("d.ts"), 1⟩⟩]) ∧
    (¬ ∃ site ∈ findCaughtErrors fileCx2, site.name = ("SomeType")) ∧
    (findCaughtErrors fileCx2b = [⟨("err"), ("SomeType"), ⟨("f.ts"), 5⟩⟩]) ∧
    (¬ ∃ site ∈ findCaughtErrors fileCx2b, site.name = ("SomeType")) := by
  decide

/-- C2, amended: `findCaughtErrors` emits one intercept site per
`instanceof` occurrence (not per distinct type) in each catch clause that
binds a variable, named by the test's right-hand side; clauses binding no
variable are skipped entirely; and a single fallback site — named by the
first variable-binding clause's variable name, not its type — is emitted
only when that first clause contributes no `instanceof` site, i.e. at most
one fallback per file, as described by `caughtRefAux`. -/
theorem C2_amended_caught_sites (f : SourceFileAST) :
    findCaughtErrors f = caughtRefAux f.path f.catches :=
  findCaughtErrors_eq_caughtRefAux f

/-- C2, witness for the amended theorem at a concrete file. -/
theorem C2_amended_witness :
    findCaughtErrors fileCx2 = caughtRefAux fileCx2.path fileCx2.catches :=
  C2_amended_caught_sites fileCx2

/-- C3: the site collector emits, for `throw new C(...)`, a raise site
named `C` of kind raised (`thrown` in the source), and for a
bare-identifier `throw e` a site named `e` of kind re-raised (`rethrown`);
and every collected raise site arises from such a throw statement. -/
theorem C3_raise_sites (f : SourceFileAST) :
    ∀ site : TypedErrorInfo, site ∈ findThrownErrors f ↔
      ∃ t ∈ f.throws,
        (∃ c a, t.expr = some (.newE c a) ∧
          site = ⟨c, "thrown", ⟨f.path, t.line⟩⟩) ∨
        (∃ s, t.expr = some (.ident s) ∧
          site = ⟨s, "rethrown", ⟨f.path, t.line⟩⟩) :=
  fun _ => mem_findThrownErrors

/-- C3, witness at a concrete file containing `throw new LoginError()`. -/
theorem C3_witness :
    (⟨("LoginError"), ("thrown"), ⟨("bb.ts"), 3⟩⟩ : TypedErrorInfo) ∈
      findThrownErrors fileThrowB :=
  (C3_raise_sites fileThrowB ⟨("LoginError"), ("thrown"), ⟨("bb.ts"), 3⟩⟩).mpr
    ⟨⟨some (.newE ("LoginError") ("")), 3⟩, by decide,
      Or.inl ⟨("LoginError"), (""), rfl, rfl⟩⟩

/-- C4, counterexample.  Two files declare a class named `LoginError`;
the aggregator's `definedIn` is the file of the last declaration in
iteration order (`b.ts`), not the first (`a.ts`) as the claim states. -/
theorem C4_counterexample :
    (analyzeErrorFlow [fileDeclA, fileDeclB] ("LoginError")).definedIn = ("b.ts") ∧
    firstDefinedIn [fileDeclA, fileDeclB] ("LoginError") = ("a.ts") ∧
    ("b.ts") ≠ ("a.ts") := by
  decide

/-- C4, amended: `definedIn` is the file of the last class declaration
(in file-iteration order) whose name equals the target, the empty string
when there is none; duplicate declarations are processed without any
failure, the later one simply overwriting the earlier. -/
theorem C4_amended_last_wins (proj : Project) (n : String) :
    (analyzeErrorFlow proj n).definedIn = lastDefinedIn proj n :=
  analyzeErrorFlow_definedIn proj n

/-- C4, witness for the amended theorem at the colliding project. -/
theorem C4_amended_witness :
    (analyzeErrorFlow [fileDeclA, fileDeclB] ("LoginError")).definedIn =
      lastDefinedIn [fileDeclA, fileDeclB] ("LoginError") :=
  C4_amended_last_wins [fileDeclA, fileDeclB] ("LoginError")

/-- C6: `uncaughtIn` is exactly the set difference `thrownIn − caughtIn`,
and in particular always a subset of `thrownIn`. -/
theorem C6_unguarded_is_difference (proj : Project) (n : String) :
    (∀ x, x ∈ (analyzeErrorFlow proj n).uncaughtIn ↔
      x ∈ (analyzeErrorFlow proj n).thrownIn ∧
        x ∉ (analyzeErrorFlow proj n).caughtIn) ∧
    (∀ x, x ∈ (analyzeErrorFlow proj n).uncaughtIn →
      x ∈ (analyzeErrorFlow proj n).thrownIn) :=
  ⟨fun _ => mem_analyzeErrorFlow_uncaughtIn,
    fun _ hx => (mem_analyzeErrorFlow_uncaughtIn.mp hx).1⟩

/-- C6, witness: in Scenario A the file raising `LoginError` is unguarded
and therefore also counted among the raising files. -/
theorem C6_witness :
    ("bb.ts") ∈ (analyzeErrorFlow [fileDeclA, fileThrowB] ("LoginError")).thrownIn :=
  (C6_unguarded_is_difference [fileDeclA, fileThrowB] ("LoginError")).2
    ("bb.ts") (by decide)

/-- C5: the overall percentage is the rounding of `100 *` the number of
declared error types whose `caughtIn` is non-empty divided by the number
of declared error types; an empty error inventory yields percentage `0`
rather than a division fault; and a details entry whose error is thrown
nowhere has coverage `0` by convention. -/
theorem C5_coverage_zero_cases (proj : Project) :
    ((generateCoverageReport proj).percentage =
      jsRound (100 * (((collectAllErrors proj).filter fun m =>
          !(analyzeErrorFlow proj m).caughtIn.isEmpty).length : ℚ) /
        ((collectAllErrors proj).length : ℚ))) ∧
    (collectAllErrors proj = [] → (generateCoverageReport proj).percentage = 0) ∧
    (∀ d ∈ (generateCoverageReport proj).details,
      (analyzeErrorFlow proj d.error).thrownIn = [] → d.coverage = 0) := by
  have hfilter : ((collectAllErrors proj).filter fun m =>
      !(analyzeErrorFlow proj m).caughtIn.isEmpty) =
      ((collectAllErrors proj).filter fun m =>
        decide (0 < (analyzeErrorFlow proj m).caughtIn.length)) := by
    apply List.filter_congr
    intro m _
    cases h : (analyzeErrorFlow proj m).caughtIn <;> simp [h]
  refine ⟨?_, ?_, ?_⟩
  · rw [coverageReport_percentage, hfilter]
    by_cases ht : 0 < (collectAllErrors proj).length
    · rw [if_pos ht]
      congr 1
      ring
    · rw [if_neg ht]
      have h0 : (collectAllErrors proj).length = 0 := Nat.eq_zero_of_not_pos ht
      have hc : ((collectAllErrors proj).filter fun m =>
          decide (0 < (analyzeErrorFlow proj m).caughtIn.length)).length = 0 :=
        Nat.le_zero.mp (h0 ▸ List.length_filter_le _ _)
      rw [hc, h0]
      norm_num
  · intro h
    rw [coverageReport_percentage, h]
    norm_num [jsRound_zero]
  · intro d hd hthrown
    rw [coverageReport_details] at hd
    obtain ⟨m, hm, hdm⟩ := List.mem_map.mp hd
    have herr : d.error = m := by rw [← hdm]
    have hcov : d.coverage = detailCoverage (analyzeErrorFlow proj m) := by
      rw [← hdm]
    rw [herr] at hthrown
    rw [hcov, detailCoverage, if_neg]
    rw [hthrown]
    simp

/-- C5, witness for the percentage formula at a concrete project. -/
theorem C5_witness :
    (generateCoverageReport [fileDeclA, fileThrowB, fileCatchC]).percentage =
      jsRound (100 *
        (((collectAllErrors [fileDeclA, fileThrowB, fileCatchC]).filter fun m =>
          !(analyzeErrorFlow [fileDeclA, fileThrowB, fileCatchC] m).caughtIn.isEmpty).length : ℚ) /
        ((collectAllErrors [fileDeclA, fileThrowB, fileCatchC]).length : ℚ)) :=
  (C5_coverage_zero_cases [fileDeclA, fileThrowB, fileCatchC]).1

/-- C7, counterexample.  Analyzing a path absent from the project does
not capture the failure as part of an ordinary per-file result: the
result type `ErrorContext` has no failure field, and `analyzeFileErrors`
throws (modelled by `Except.error`), so no ok-result exists at all. -/
theorem C7_counterexample :
    (¬ ∃ ctx, analyzeFileErrors [fileBlank] ("missing.ts") = Except.ok ctx) ∧
    analyzeFileErrors [fileBlank] ("missing.ts") =
      Except.error ("Source file not found: missing.ts") := by
  constructor
  · rintro ⟨ctx, hctx⟩
    have h : analyzeFileErrors [fileBlank] ("missing.ts") =
        Except.error ("Source file not found: missing.ts") := rfl
    rw [h] at hctx
    simp at hctx
  · rfl

/-- C7, amended: a file present in the project yields an ordinary
`ErrorContext` result, while a missing file makes `analyzeFileErrors`
throw a `Source file not found` exception that propagates to the caller;
the per-file result type carries no failure information. -/
theorem C7_amended_failure_thrown (proj : Project) (filePath : String) :
    ((∃ f ∈ proj, f.path = filePath) →
      ∃ ctx, analyzeFileErrors proj filePath = Except.ok ctx) ∧
    ((¬ ∃ f ∈ proj, f.path = filePath) →
      analyzeFileErrors proj filePath =
        Except.error ("Source file not found: " ++ filePath)) := by
  cases hfind : proj.find? (fun f => f.path == filePath) with
  | none =>
    constructor
    · rintro ⟨f, hf, hp⟩
      have := List.find?_eq_none.mp hfind f hf
      rw [hp] at this
      simp at this
    · intro _
      rw [analyzeFileErrors, hfind]
  | some f =>
    constructor
    · intro _
      exact ⟨⟨findDefinedErrors f, findThrownErrors f, findCaughtErrors f⟩,
        by rw [analyzeFileErrors, hfind]⟩
    · intro hne
      exfalso
      apply hne
      refine ⟨f, List.mem_of_find?_eq_some hfind, ?_⟩
      have := List.find?_some hfind
      simpa using this

/-- C7, witness: the missing-file branch at a concrete project. -/
theorem C7_witness :
    analyzeFileErrors [fileBlank] ("nope.ts") =
      Except.error ("Source file not found: nope.ts") :=
  (C7_amended_failure_thrown [fileBlank] ("nope.ts")).2 (by decide)

/-- C8, counterexample.  The name `LoginError` has zero declarations and
zero raise sites in the project, yet `analyzeErrorFlow` reports no
explicit not-found result: it returns exactly the empty-but-valid
`ErrorFlow`. -/
theorem C8_counterexample :
    (fileBlank.classes = [] ∧ findThrownErrors fileBlank = []) ∧
    analyzeErrorFlow [fileBlank] ("LoginError") = emptyFlow ("LoginError") := by
  decide

/-- C8, amended: the aggregator never produces an explicit not-found
result.  For a requested error name with zero declarations (no class of
that name in any file), `analyzeErrorFlow` returns an ordinary
`ErrorFlow` whose `definedIn` is the empty string; its `thrownIn` is
empty exactly when no throw statement's expression text contains the name
— a strictly stronger condition than having zero raise sites, so a name
with zero raise sites may still show a non-empty `thrownIn` — and when
`thrownIn` is empty, `uncaughtIn` is empty too, making the result exactly
the empty-but-valid flow. -/
theorem C8_amended_unknown_plain (proj : Project) (n : String)
    (hdecl : ∀ f ∈ proj, classMatches n f = false) :
    (analyzeErrorFlow proj n).definedIn = "" ∧
    ((analyzeErrorFlow proj n).thrownIn = [] ↔
      ∀ f ∈ proj, fileThrowsCode f n = false) ∧
    ((analyzeErrorFlow proj n).thrownIn = [] →
      (analyzeErrorFlow proj n).uncaughtIn = []) := by
  refine ⟨?_, analyzeErrorFlow_thrownIn_eq_nil_iff, ?_⟩
  · rw [analyzeErrorFlow_definedIn, lastDefinedIn, List.find?_eq_none.mpr]
    intro f hf
    rw [List.mem_reverse] at hf
    simp [hdecl f hf]
  · intro hempty
    have hflat : proj.flatMap (throwMatches n) = [] := by
      rw [List.flatMap_eq_nil_iff]
      intro f hf
      exact throwMatches_eq_nil
        (analyzeErrorFlow_thrownIn_eq_nil_iff.mp hempty f hf)
    rw [analyzeErrorFlow_uncaughtIn, hflat]
    rfl

/-- C8, witness at a project declaring nothing: the unknown target's flow
has an empty `definedIn`, with no not-found marker. -/
theorem C8_witness :
    (analyzeErrorFlow [fileBlank] ("LoginError")).definedIn = "" :=
  (C8_amended_unknown_plain [fileBlank] ("LoginError") (by decide)).1

/-- C9: adding one fresh file that contains a raise site for an
already-raised error type (and no matching intercept) appends exactly
that file to `thrownIn` — existing members are preserved — leaves
`caughtIn` unchanged, and can only lower or preserve that error's
coverage value. -/
theorem C9_monotonicity (proj : Project) (g : SourceFileAST) (n : String)
    (hraise : fileRaisesSpec g n = true)
    (hnocatch : fileCatchesCode g n = false)
    (hfresh : ∀ f ∈ proj, f.path ≠ g.path)
    (halready : (analyzeErrorFlow proj n).thrownIn ≠ []) :
    (analyzeErrorFlow (proj ++ [g]) n).thrownIn =
      (analyzeErrorFlow proj n).thrownIn ++ [g.path] ∧
    (analyzeErrorFlow (proj ++ [g]) n).caughtIn =
      (analyzeErrorFlow proj n).caughtIn ∧
    detailCoverage (analyzeErrorFlow (proj ++ [g]) n) ≤
      detailCoverage (analyzeErrorFlow proj n) := by
  have hthrowg : fileThrowsCode g n = true := fileThrowsCode_of_fileRaisesSpec hraise
  have hallp : ∀ x ∈ throwMatches n g, x = g.path :=
    fun x hx => (mem_throwMatches.mp hx).1
  have hne : throwMatches n g ≠ [] := throwMatches_ne_nil hthrowg
  have hnotin : g.path ∉ proj.flatMap (throwMatches n) := by
    intro hmem
    rw [List.mem_flatMap] at hmem
    obtain ⟨f, hf, hx⟩ := hmem
    exact hfresh f hf ((mem_throwMatches.mp hx).1.symm)
  have h1 : (analyzeErrorFlow (proj ++ [g]) n).thrownIn =
      (analyzeErrorFlow proj n).thrownIn ++ [g.path] := by
    rw [analyzeErrorFlow_thrownIn, analyzeErrorFlow_thrownIn, List.flatMap_append,
      List.flatMap_cons, List.flatMap_nil, List.append_nil,
      jsDedup_append_const hallp hne hnotin]
  have h2 : (analyzeErrorFlow (proj ++ [g]) n).caughtIn =
      (analyzeErrorFlow proj n).caughtIn := by
    rw [analyzeErrorFlow_caughtIn, analyzeErrorFlow_caughtIn, List.flatMap_append,
      List.flatMap_cons, List.flatMap_nil, List.append_nil,
      catchMatches_eq_nil hnocatch, List.append_nil]
  refine ⟨h1, h2, ?_⟩
  rw [detailCoverage, detailCoverage, h1, h2, List.length_append]
  have hlen : 0 < (analyzeErrorFlow proj n).thrownIn.length :=
    List.length_pos.mpr halready
  rw [if_pos (by simp), if_pos hlen]
  have hc : (0:ℚ) ≤ ((analyzeErrorFlow proj n).caughtIn.length : ℚ) :=
    Nat.cast_nonneg _
  have ht : (0:ℚ) < ((analyzeErrorFlow proj n).thrownIn.length : ℚ) := by
    exact_mod_cast hlen
  push_cast
  gcongr
  linarith

/-- C9, witness: adding a fresh `throw new LoginError()` file to
Scenario A. -/
theorem C9_witness :
    (analyzeErrorFlow ([fileDeclA, fileThrowB] ++ [fileThrowG]) ("LoginError")).thrownIn =
      (analyzeErrorFlow [fileDeclA, fileThrowB] ("LoginError")).thrownIn ++
        [fileThrowG.path] ∧
    (analyzeErrorFlow ([fileDeclA, fileThrowB] ++ [fileThrowG]) ("LoginError")).caughtIn =
      (analyzeErrorFlow [fileDeclA, fileThrowB] ("LoginError")).caughtIn ∧
    detailCoverage (analyzeErrorFlow ([fileDeclA, fileThrowB] ++ [fileThrowG]) ("LoginError")) ≤
      detailCoverage (analyzeErrorFlow [fileDeclA, fileThrowB] ("LoginError")) :=
  C9_monotonicity [fileDeclA, fileThrowB] fileThrowG ("LoginError")
    (by decide) (by decide) (by decide) (by decide)

/-- C10: the coverage report satisfies
`coveredErrors + uncoveredErrors = totalErrors`; its details list has one
entry per declared error-like class name — its length is `totalErrors`,
its error names are pairwise distinct and are exactly the names of the
classes declared with an error-like supertype — and `percentage` is an
integer between `0` and `100`. -/
theorem C10_report_invariants (proj : Project) :
    ((generateCoverageReport proj).coveredErrors +
      (generateCoverageReport proj).uncoveredErrors =
        (generateCoverageReport proj).totalErrors) ∧
    ((generateCoverageReport proj).details.length =
      (generateCoverageReport proj).totalErrors) ∧
    ((generateCoverageReport proj).details.map (fun d => d.error)).Nodup ∧
    (∀ m, m ∈ (generateCoverageReport proj).details.map (fun d => d.error) ↔
      ∃ f ∈ proj, ∃ cls ∈ f.classes, cls.name = some m ∧
        ∃ her, cls.extendsClause = some her ∧ isErrorClass her = true) ∧
    (0 ≤ (generateCoverageReport proj).percentage ∧
      (generateCoverageReport proj).percentage ≤ 100) := by
  have hcov_le : (generateCoverageReport proj).coveredErrors ≤
      (generateCoverageReport proj).totalErrors := by
    rw [coverageReport_coveredErrors, coverageReport_totalErrors]
    exact List.length_filter_le _ _
  have hmap : (generateCoverageReport proj).details.map (fun d => d.error) =
      collectAllErrors proj := by
    rw [coverageReport_details, List.map_map]
    have hid : ((fun d : CoverageDetail => d.error) ∘ fun m =>
        (⟨m, detailCoverage (analyzeErrorFlow proj m),
          (analyzeErrorFlow proj m).uncaughtIn⟩ : CoverageDetail)) =
        fun m : String => m := rfl
    rw [hid]
    exact List.map_id _
  refine ⟨?_, ?_, ?_, ?_, ?_⟩
  · rw [coverageReport_uncoveredErrors]
    exact Nat.add_sub_cancel' hcov_le
  · rw [coverageReport_details, coverageReport_totalErrors, List.length_map]
  · rw [hmap, collectAllErrors]
    exact nodup_jsDedup _
  · intro m
    rw [hmap]
    exact mem_collectAllErrors
  · rw [coverageReport_percentage]
    apply jsRound_bounds
    · by_cases ht : 0 < (collectAllErrors proj).length
      · rw [if_pos ht]
        positivity
      · rw [if_neg ht]
    · by_cases ht : 0 < (collectAllErrors proj).length
      · rw [if_pos ht]
        have htq : (0:ℚ) < ((collectAllErrors proj).length : ℚ) := by
          exact_mod_cast ht
        have hle : (((collectAllErrors proj).filter fun m =>
            decide (0 < (analyzeErrorFlow proj m).caughtIn.length)).length : ℚ) ≤
            ((collectAllErrors proj).length : ℚ) := by
          exact_mod_cast List.length_filter_le _ _
        have hdiv : (((collectAllErrors proj).filter fun m =>
            decide (0 < (analyzeErrorFlow proj m).caughtIn.length)).length : ℚ) /
            ((collectAllErrors proj).length : ℚ) ≤ 1 :=
          (div_le_one htq).mpr hle
        nlinarith
      · rw [if_neg ht]
        norm_num

/-- C10, witness at a concrete project with one declared error type. -/
theorem C10_witness :
    (generateCoverageReport [fileDeclA, fileThrowB, fileCatchC]).coveredErrors +
      (generateCoverageReport [fileDeclA, fileThrowB, fileCatchC]).uncoveredErrors =
      (generateCoverageReport [fileDeclA, fileThrowB, fileCatchC]).totalErrors :=
  (C10_report_invariants [fileDeclA, fileThrowB, fileCatchC]).1

end CodeContext
